import Mathlib

/-!
# Pocket Shelf: the reading-list store of `src/app/page.js`

A shallow embedding of the hook `useReadingList` (collection, preferences,
storage effects) and of the derived view `filteredItems`, followed by the
properties of the specification that are stated about them.

Conventions of the embedding.

* An item is a record with the fields of the data model.  `title` is always
  present; `author`, `link`, `notes` and `favorite` may be absent
  (`none` stands for JavaScript `undefined`).  `createdAt` is the timestamp
  the ISO-8601 string denotes, in milliseconds, so that
  `new Date(x.createdAt).getTime()` is `x.createdAt`.
* Functions of the JavaScript host that are not code of the repository
  (`String.prototype.toLowerCase`, `String.prototype.localeCompare`,
  `JSON.parse`, `JSON.stringify`) are parameters, collected in `Host` and
  `Json`.  `crypto.randomUUID()` and `new Date()` are arguments of `addItem`.
* `Array.prototype.sort` is a stable sort; the embedding uses insertion from the
  right, which is what every stable sort returns when the comparator is
  consistent.
* A `TypeError` raised by reading a property of `undefined` is the error
  value of `Except`, and so is the `SyntaxError` of `JSON.parse`.
* A state updater handed to `setPrefs` runs when the next render computes the
  state, not inside the effect that queues it.
-/

namespace PocketShelf

/-! ## Data model -/

/-- One entry of the reading list. -/
structure Item where
  id : String
  title : String
  author : Option String
  link : Option String
  notes : Option String
  status : String
  favorite : Option Bool
  createdAt : Int
  deriving DecidableEq, Repr

/-- The object handed to `addItem`.  Besides the form fields it may carry any
other field of an item; `addItem` spreads all of them. -/
structure Draft where
  title : String
  author : Option String
  link : Option String
  notes : Option String
  favorite : Option Bool
  id : Option String
  status : Option String
  createdAt : Option Int
  deriving DecidableEq, Repr

/-- The preferences record `{ sort, filter }`. -/
structure Prefs where
  sort : String
  filter : String
  deriving DecidableEq, Repr

/-- The constant `defaultPrefs`. -/
def defaultPrefs : Prefs := { sort := "recent", filter := "all" }

/-- The exception `filteredItems` can raise. -/
inductive JsError where
  | typeError
  deriving DecidableEq, Repr

/-- The exception of `JSON.parse` on a text that is not JSON. -/
inductive JsonError where
  | syntaxError
  deriving DecidableEq, Repr

/-- Host string functions whose result depends on the Unicode tables of the
engine. -/
structure Host where
  toLowerCase : String → String
  localeCompare : String → String → Int

/-! ## Host functions with a fixed meaning -/

/-- The code points `String.prototype.trim` strips: WhiteSpace and
LineTerminator of ECMAScript. -/
def isTrimChar (c : Char) : Bool :=
  c.toNat == 0x09 || c.toNat == 0x0A || c.toNat == 0x0B || c.toNat == 0x0C ||
  c.toNat == 0x0D || c.toNat == 0x20 || c.toNat == 0xA0 || c.toNat == 0x1680 ||
  (0x2000 ≤ c.toNat && c.toNat ≤ 0x200A) || c.toNat == 0x2028 || c.toNat == 0x2029 ||
  c.toNat == 0x202F || c.toNat == 0x205F || c.toNat == 0x3000 || c.toNat == 0xFEFF

/-- The method `s.trim()`. -/
def trim (s : String) : String :=
  ⟨((s.data.dropWhile isTrimChar).reverse.dropWhile isTrimChar).reverse⟩

/-- Does `needle` occur in the text starting at some position? -/
def includesFrom (needle : List Char) : List Char → Bool
  | [] => needle.isEmpty
  | c :: cs => needle.isPrefixOf (c :: cs) || includesFrom needle cs

/-- The method `s.includes(term)`. -/
def includes (s term : String) : Bool :=
  includesFrom term.data s.data

/-- The conversion `Number(b)` of a boolean. -/
def toNumber (b : Bool) : Int :=
  if b then 1 else 0

/-- Insertion of `x` in front of the first element it does not have to follow;
`cmp x y ≤ 0` means that `x` need not come after `y`. -/
def sortInsert {α : Type} (cmp : α → α → Int) (x : α) : List α → List α
  | [] => [x]
  | y :: ys => if cmp x y ≤ 0 then x :: y :: ys else y :: sortInsert cmp x ys

/-- The method `Array.prototype.sort(cmp)`, on a copy: a stable sort (ECMAScript 2019).  For
a consistent comparator every stable sort returns this list. -/
def arraySort {α : Type} (cmp : α → α → Int) : List α → List α
  | [] => []
  | x :: xs => sortInsert cmp x (arraySort cmp xs)

/-- The method `Array.prototype.filter` with a callback that may throw: the elements are
visited from left to right and the first exception ends the call. -/
def filterE {α ε : Type} (p : α → Except ε Bool) : List α → Except ε (List α)
  | [] => .ok []
  | x :: xs =>
    match p x with
    | .error e => .error e
    | .ok b =>
      match filterE p xs with
      | .error e => .error e
      | .ok ys => .ok (if b then x :: ys else ys)

/-! ## The hook `useReadingList`: mutations -/

/-- The object literal of `addItem`: the draft is spread, then `id`, `createdAt`
and `status` are overwritten. -/
def newItem (draft : Draft) (uuid : String) (now : Int) : Item :=
  { id := uuid
    title := draft.title
    author := draft.author
    link := draft.link
    notes := draft.notes
    status := "backlog"
    favorite := draft.favorite
    createdAt := now }

/-- The operation `addItem(item)`: the new item is put in front of the collection. -/
def addItem (draft : Draft) (uuid : String) (now : Int) (prev : List Item) : List Item :=
  newItem draft uuid now :: prev

/-- The operation `updateStatus(id, status)`. -/
def updateStatus (id status : String) (prev : List Item) : List Item :=
  prev.map (fun item => if item.id = id then { item with status := status } else item)

/-- The operation `removeItem(id)`. -/
def removeItem (id : String) (prev : List Item) : List Item :=
  prev.filter (fun item => item.id != id)

/-- The operation `toggleFavorite(id)`: `!item.favorite`, where `undefined` is falsy. -/
def toggleFavorite (id : String) (prev : List Item) : List Item :=
  prev.map (fun item =>
    if item.id = id then { item with favorite := some (!(item.favorite.getD false)) } else item)

/-! ## The derived view `filteredItems` -/

/-- The comparator handed to `sort`. -/
def compareItems (H : Host) (prefs : Prefs) (a b : Item) : Int :=
  if prefs.sort = "recent" then b.createdAt - a.createdAt
  else if prefs.sort = "alpha" then H.localeCompare a.title b.title
  else if prefs.sort = "favorite" then
    toNumber (b.favorite.getD false) - toNumber (a.favorite.getD false)
  else 0

/-- The constant `sorted` of `filteredItems`. -/
def sorted (H : Host) (items : List Item) (prefs : Prefs) : List Item :=
  arraySort (compareItems H prefs) items

/-- The callback of `sorted.filter`.  `item.author.toLowerCase()` and
`item.notes.toLowerCase()` raise a `TypeError` when the field is absent; they
are reached only when the earlier disjuncts are false. -/
def keepItem (H : Host) (statusFilter term : String) (item : Item) : Except JsError Bool :=
  if statusFilter ≠ "all" ∧ item.status ≠ statusFilter then .ok false
  else if term = "" then .ok true
  else if includes (H.toLowerCase item.title) term then .ok true
  else
    match item.author with
    | none => .error .typeError
    | some author =>
      if includes (H.toLowerCase author) term then .ok true
      else
        match item.notes with
        | none => .error .typeError
        | some notes => .ok (includes (H.toLowerCase notes) term)

/-- The search term of `filteredItems`: `search.trim().toLowerCase()`. -/
def searchTerm (H : Host) (search : String) : String :=
  H.toLowerCase (trim search)

/-- The memoised value `filteredItems`. -/
def filteredItems (H : Host) (items : List Item) (prefs : Prefs) (search : String) :
    Except JsError (List Item) :=
  filterE (keepItem H prefs.filter (searchTerm H search)) (sorted H items prefs)

/-! ## The page: form submission -/

/-- The state of the form: four texts, typed by the user. -/
structure FormState where
  title : String
  author : String
  link : String
  notes : String
  deriving DecidableEq, Repr

/-- The constant `emptyForm`. -/
def emptyForm : FormState :=
  { title := "", author := "", link := "", notes := "" }

/-- The handler `handleSubmit`, as far as the collection is concerned: nothing
happens when the trimmed title is empty; otherwise `addItem` is called with the
trimmed texts. -/
def handleSubmit (formState : FormState) (uuid : String) (now : Int) (prev : List Item) :
    List Item :=
  if trim formState.title = "" then prev
  else
    addItem
      { title := trim formState.title
        author := some (trim formState.author)
        link := some (trim formState.link)
        notes := some (trim formState.notes)
        favorite := none
        id := none
        status := none
        createdAt := none }
      uuid now prev

/-! ## The hook `useReadingList`: storage effects -/

/-- The constant `STORAGE_KEY`. -/
def STORAGE_KEY : String := "pocket-shelf-items"

/-- The constant `PREF_KEY`. -/
def PREF_KEY : String := "pocket-shelf-prefs"

/-- The content of `window.localStorage`: the text stored under each key, if any. -/
abbrev Storage := String → Option String

/-- The call `localStorage.getItem(key)`; `none` is `null`. -/
def Storage.getItem (s : Storage) (key : String) : Option String :=
  s key

/-- The call `localStorage.setItem(key, value)`. -/
def Storage.setItem (s : Storage) (key value : String) : Storage :=
  fun k => if k = key then some value else s k

/-- The call `localStorage.removeItem(key)`. -/
def Storage.removeItem (s : Storage) (key : String) : Storage :=
  fun k => if k = key then none else s k

/-- What `JSON.parse` of a preferences text contributes to the spread
`{ ...prev, ...JSON.parse(storedPrefs) }`: the fields it defines. -/
structure PrefsPatch where
  sort : Option String
  filter : Option String
  deriving DecidableEq, Repr

/-- The functions `JSON.parse` and `JSON.stringify` at the two types the hook uses.  A parse
result `none` means that `JSON.parse` throws. -/
structure Json where
  parseItems : String → Option (List Item)
  parsePrefs : String → Option PrefsPatch
  stringifyItems : List Item → String
  stringifyPrefs : Prefs → String

/-- The spread `{ ...prev, ...patch }`. -/
def mergePrefs (prev : Prefs) (patch : PrefsPatch) : Prefs :=
  { sort := patch.sort.getD prev.sort, filter := patch.filter.getD prev.filter }

/-- The test `if (stored)`: `null` and the empty string are falsy. -/
def truthy : Option String → Bool
  | none => false
  | some s => s != ""

/-- What the first effect leaves behind: the state updates it has queued and
the storage.  `setItems` was called with a value.  `setPrefs` was called with
the updater `(prev) => ({ ...prev, ...JSON.parse(storedPrefs) })`, which is
recorded by the text `storedPrefs` it closes over: the updater, and with it
`JSON.parse`, runs when the next render computes the state. -/
structure LoadResult where
  setItems : Option (List Item)
  setPrefs : Option String
  storage : Storage

/-- The first effect of `useReadingList`.  Both keys are read first.  A truthy
collection text is parsed inside the `try`, a parse failure removing the key.
For a truthy preferences text the `try` only hands the updater to `setPrefs`,
which does not throw, so that its `catch` never runs and the key stays.  The
effect runs in the browser, where `window` is defined. -/
def loadEffect (J : Json) (storage : Storage) : LoadResult :=
  let stored := storage.getItem STORAGE_KEY
  let storedPrefs := storage.getItem PREF_KEY
  let afterItems : Option (List Item) × Storage :=
    if truthy stored then
      match stored.bind J.parseItems with
      | some parsed => (some parsed, storage)
      | none => (none, storage.removeItem STORAGE_KEY)
    else (none, storage)
  { setItems := afterItems.1
    setPrefs := if truthy storedPrefs then storedPrefs else none
    storage := afterItems.2 }

/-- The updater `(prev) => ({ ...prev, ...JSON.parse(storedPrefs) })` applied to
the previous preferences; `JSON.parse` may throw. -/
def prefsUpdater (J : Json) (storedPrefs : String) (prev : Prefs) : Except JsonError Prefs :=
  match J.parsePrefs storedPrefs with
  | some patch => .ok (mergePrefs prev patch)
  | none => .error .syntaxError

/-- The second effect: `localStorage.setItem(STORAGE_KEY, JSON.stringify(items))`. -/
def persistItems (J : Json) (items : List Item) (storage : Storage) : Storage :=
  storage.setItem STORAGE_KEY (J.stringifyItems items)

/-- The third effect: `localStorage.setItem(PREF_KEY, JSON.stringify(prefs))`. -/
def persistPrefs (J : Json) (prefs : Prefs) (storage : Storage) : Storage :=
  storage.setItem PREF_KEY (J.stringifyPrefs prefs)

/-- The state of the hook together with the storage. -/
structure Hook where
  items : List Item
  prefs : Prefs
  storage : Storage

/-- The effects of the first commit, in declaration order: the load effect,
then the two persistence effects, which see the state of the first render
(`[]` and `defaultPrefs`). -/
def mountEffects (J : Json) (storage : Storage) : Storage :=
  persistPrefs J defaultPrefs (persistItems J [] (loadEffect J storage).storage)

/-- The whole startup: the first commit, then the render caused by the queued
updates, which computes the new state, the updater of the preferences
included; an exception of the updater ends the render and no further effect
runs.  After a render that succeeds the persistence effect of each changed
value runs again. -/
def startup (J : Json) (storage : Storage) : Except JsonError Hook :=
  let loaded := loadEffect J storage
  let mounted := mountEffects J storage
  let items := loaded.setItems.getD []
  let afterItems := if loaded.setItems.isSome then persistItems J items mounted else mounted
  match loaded.setPrefs with
  | none => .ok { items := items, prefs := defaultPrefs, storage := afterItems }
  | some storedPrefs =>
    match prefsUpdater J storedPrefs defaultPrefs with
    | .error e => .error e
    | .ok prefs => .ok { items := items, prefs := prefs, storage := persistPrefs J prefs afterItems }

/-! ## Specification vocabulary -/

/-- The text `t` occurs in `s` as a contiguous block. -/
def IsSubstring (t s : String) : Prop :=
  ∃ pre post : List Char, s.data = pre ++ t.data ++ post

/-- A comparator that orders its arguments consistently: swapping the arguments
swaps the sign, and "need not come after" is transitive. -/
structure ConsistentComparator {α : Type} (cmp : α → α → Int) : Prop where
  swap : ∀ a b, cmp a b < 0 ↔ 0 < cmp b a
  trans : ∀ a b c, cmp a b ≤ 0 → cmp b c ≤ 0 → cmp a c ≤ 0

/-- The filter callback answers `true`. -/
def passes {α ε : Type} (p : α → Except ε Bool) (x : α) : Bool :=
  match p x with
  | .ok true => true
  | _ => false

/-- The filter callback raises no exception. -/
def succeeds {α ε : Type} (p : α → Except ε Bool) (x : α) : Bool :=
  match p x with
  | .ok _ => true
  | .error _ => false

/-- The favorite flag as the code reads it: absent counts as `false`. -/
def isFavorite (item : Item) : Bool :=
  item.favorite.getD false

/-- A sequence of `addItem` calls, the first call first; each call comes with
the id and the time the host hands out for it. -/
def addAll (calls : List (Draft × String × Int)) (start : List Item) : List Item :=
  calls.foldl (fun acc call => addItem call.1 call.2.1 call.2.2 acc) start

/-- What the user can do to the collection through the page. -/
inductive Action where
  | submit (formState : FormState) (uuid : String) (now : Int)
  | updateStatus (id status : String)
  | removeItem (id : String)
  | toggleFavorite (id : String)

/-- The effect of one action on the collection. -/
def Action.apply : Action → List Item → List Item
  | .submit formState uuid now, items => handleSubmit formState uuid now items
  | .updateStatus id status, items => PocketShelf.updateStatus id status items
  | .removeItem id, items => PocketShelf.removeItem id items
  | .toggleFavorite id, items => PocketShelf.toggleFavorite id items

/-- The collection after a sequence of actions on the empty collection. -/
def runActions (actions : List Action) : List Item :=
  actions.foldl (fun items action => action.apply items) []

/-- Two items agree on every field but `favorite`. -/
def SameExceptFavorite (a b : Item) : Prop :=
  a.id = b.id ∧ a.title = b.title ∧ a.author = b.author ∧ a.link = b.link ∧
  a.notes = b.notes ∧ a.status = b.status ∧ a.createdAt = b.createdAt

/-- Two items agree on every field but `status`. -/
def SameExceptStatus (a b : Item) : Prop :=
  a.id = b.id ∧ a.title = b.title ∧ a.author = b.author ∧ a.link = b.link ∧
  a.notes = b.notes ∧ a.favorite = b.favorite ∧ a.createdAt = b.createdAt

/-! ## Sample hosts and data -/

/-- Lower-casing of the letters `A` to `Z`. -/
def asciiLowerChar (c : Char) : Char :=
  if 65 ≤ c.toNat ∧ c.toNat ≤ 90 then Char.ofNat (c.toNat + 32) else c

/-- On ASCII text `toLowerCase` is this function. -/
def asciiLower (s : String) : String :=
  ⟨s.data.map asciiLowerChar⟩

/-- Comparison of two strings by their code points, as a comparator. -/
def codePointCompare (a b : String) : Int :=
  if a.data < b.data then -1 else if b.data < a.data then 1 else 0

/-- A host for ASCII text in a locale that collates by code point. -/
def asciiHost : Host :=
  { toLowerCase := asciiLower, localeCompare := codePointCompare }

/-- A codec for the two default values only, where it agrees with `JSON`: the
empty collection is the text `[]` and the default preferences are their usual
object text.  The parser rejects every other text, as `JSON.parse` rejects the
texts of the two corrupted storages below; the serialisers are meant for the
defaults. -/
def defaultsJson : Json :=
  { parseItems := fun s => if s = "[]" then some [] else none
    parsePrefs := fun s =>
      if s = "\x7b\"sort\":\"recent\",\"filter\":\"all\"\x7d" then
        some { sort := some "recent", filter := some "all" }
      else none
    stringifyItems := fun _ => "[]"
    stringifyPrefs := fun _ => "\x7b\"sort\":\"recent\",\"filter\":\"all\"\x7d" }

/-- A storage whose only entry is a collection text that is not JSON. -/
def corruptedItemsStorage : Storage :=
  fun k => if k = STORAGE_KEY then some "[oops" else none

/-- A storage whose only entry is a preferences text that is not JSON. -/
def corruptedPrefsStorage : Storage :=
  fun k => if k = PREF_KEY then some "\x7boops" else none

/-- The draft of the first scenario item. -/
def atomicHabitsDraft : Draft :=
  { title := "Atomic Habits", author := some "James Clear", link := some "", notes := some "",
    favorite := none, id := none, status := none, createdAt := none }

/-- The draft of the second scenario item. -/
def deepWorkDraft : Draft :=
  { title := "Deep Work", author := some "Cal Newport", link := some "", notes := some "",
    favorite := none, id := none, status := none, createdAt := none }

/-- The first scenario item, as `addItem` creates it. -/
def atomicHabits : Item :=
  { id := "id-1", title := "Atomic Habits", author := some "James Clear", link := some "",
    notes := some "", status := "backlog", favorite := none, createdAt := 1000 }

/-- The second scenario item, as `addItem` creates it. -/
def deepWork : Item :=
  { id := "id-2", title := "Deep Work", author := some "Cal Newport", link := some "",
    notes := some "", status := "backlog", favorite := none, createdAt := 2000 }

/-- An item marked as favorite, older than the two scenario items. -/
def starredItem : Item :=
  { id := "id-0", title := "Walden", author := some "Henry David Thoreau", link := some "",
    notes := some "", status := "reading", favorite := some true, createdAt := 500 }

/-- An item with a title and neither author, link nor notes. -/
def bareItem : Item :=
  { id := "id-3", title := "Deep Work", author := none, link := none, notes := none,
    status := "backlog", favorite := none, createdAt := 3000 }

/-! ## Lemmas on the host functions -/

theorem includesFrom_iff (needle hay : List Char) :
    includesFrom needle hay = true ↔ needle <:+: hay := by
  induction hay with
  | nil => cases needle <;> simp [includesFrom]
  | cons c cs ih =>
    simp only [includesFrom, Bool.or_eq_true, ih, List.infix_cons_iff, List.isPrefixOf_iff_prefix]

theorem includes_iff (s term : String) : includes s term = true ↔ IsSubstring term s := by
  unfold includes IsSubstring
  rw [includesFrom_iff]
  constructor
  · rintro ⟨pre, post, h⟩
    exact ⟨pre, post, h.symm⟩
  · rintro ⟨pre, post, h⟩
    exact ⟨pre, post, h.symm⟩

theorem filterE_ok_iff {α ε : Type} (p : α → Except ε Bool) (l ys : List α) :
    filterE p l = .ok ys ↔ (∀ x ∈ l, succeeds p x = true) ∧ ys = l.filter (passes p) := by
  induction l generalizing ys with
  | nil =>
    simp only [filterE, List.not_mem_nil, false_imp_iff, implies_true, List.filter_nil, true_and]
    constructor
    · intro h
      cases h
      rfl
    · intro h
      rw [h]
  | cons x xs ih =>
    cases hx : p x with
    | error e =>
      have hs : succeeds p x = false := by simp only [succeeds, hx]
      simp only [filterE, hx, List.mem_cons, forall_eq_or_imp, hs, Bool.false_eq_true, false_and]
      exact ⟨fun h => (by cases h), fun h => h.elim⟩
    | ok b =>
      have hs : succeeds p x = true := by simp only [succeeds, hx]
      have hp : passes p x = b := by cases b <;> simp only [passes, hx]
      cases hxs : filterE p xs with
      | error e =>
        have hno : ¬ ∀ y ∈ xs, succeeds p y = true := fun hall => by
          have h := (ih (xs.filter (passes p))).2 ⟨hall, rfl⟩
          rw [hxs] at h
          cases h
        simp only [filterE, hx, hxs, List.mem_cons, forall_eq_or_imp, hs, true_and]
        exact ⟨fun h => (by cases h), fun h => (hno h.1).elim⟩
      | ok zs =>
        obtain ⟨hall, hzs⟩ := (ih zs).1 hxs
        simp only [filterE, hx, hxs, List.mem_cons, forall_eq_or_imp, hs, true_and, List.filter_cons,
          hp, ← hzs]
        constructor
        · intro h
          cases h
          exact ⟨hall, rfl⟩
        · intro h
          rw [h.2]

theorem filterE_error_iff {α : Type} (p : α → Except JsError Bool) (l : List α) :
    filterE p l = .error .typeError ↔ ∃ x ∈ l, succeeds p x = false := by
  constructor
  · intro h
    by_contra hne
    push_neg at hne
    have hall : ∀ x ∈ l, succeeds p x = true := fun x hx => by simpa using hne x hx
    have := (filterE_ok_iff p l _).2 ⟨hall, rfl⟩
    rw [h] at this
    cases this
  · rintro ⟨x, hx, hfail⟩
    cases hr : filterE p l with
    | error e => cases e; rfl
    | ok ys =>
      have := ((filterE_ok_iff p l ys).1 hr).1 x hx
      rw [hfail] at this
      cases this

/-! ## Lemmas on the stable sort -/

theorem sortInsert_perm {α : Type} (cmp : α → α → Int) (x : α) (l : List α) :
    List.Perm (sortInsert cmp x l) (x :: l) := by
  induction l with
  | nil => exact List.Perm.refl _
  | cons y ys ih =>
    unfold sortInsert
    split_ifs
    · exact List.Perm.refl _
    · exact (List.Perm.cons y ih).trans (List.Perm.swap x y ys)

theorem arraySort_perm {α : Type} (cmp : α → α → Int) (l : List α) :
    List.Perm (arraySort cmp l) l := by
  induction l with
  | nil => exact List.Perm.refl _
  | cons x xs ih => exact (sortInsert_perm cmp x _).trans (List.Perm.cons x ih)

theorem mem_arraySort {α : Type} (cmp : α → α → Int) (l : List α) (x : α) :
    x ∈ arraySort cmp l ↔ x ∈ l :=
  (arraySort_perm cmp l).mem_iff

theorem ConsistentComparator.total {α : Type} {cmp : α → α → Int}
    (hc : ConsistentComparator cmp) (a b : α) (h : ¬ cmp a b ≤ 0) : cmp b a ≤ 0 := by
  have h1 : 0 < cmp a b := by omega
  have h2 := (hc.swap b a).2 h1
  omega

theorem sortInsert_pairwise {α : Type} {cmp : α → α → Int} (hc : ConsistentComparator cmp)
    (x : α) (l : List α) (hl : l.Pairwise (fun a b => cmp a b ≤ 0)) :
    (sortInsert cmp x l).Pairwise (fun a b => cmp a b ≤ 0) := by
  induction l with
  | nil => simp [sortInsert]
  | cons y ys ih =>
    obtain ⟨hy, hys⟩ := List.pairwise_cons.1 hl
    unfold sortInsert
    split_ifs with hxy
    · refine List.pairwise_cons.2 ⟨?_, hl⟩
      intro z hz
      rcases List.mem_cons.1 hz with rfl | hz
      · exact hxy
      · exact hc.trans _ _ _ hxy (hy z hz)
    · refine List.pairwise_cons.2 ⟨?_, ih hys⟩
      intro z hz
      rcases List.mem_cons.1 ((sortInsert_perm cmp x ys).mem_iff.1 hz) with rfl | hz
      · exact hc.total _ _ hxy
      · exact hy z hz

theorem arraySort_pairwise {α : Type} {cmp : α → α → Int} (hc : ConsistentComparator cmp)
    (l : List α) : (arraySort cmp l).Pairwise (fun a b => cmp a b ≤ 0) := by
  induction l with
  | nil => simp [arraySort]
  | cons x xs ih => exact sortInsert_pairwise hc x _ ih

theorem sortInsert_of_forall {α : Type} (cmp : α → α → Int) (x : α) (l : List α)
    (h : ∀ y ∈ l, cmp x y ≤ 0) : sortInsert cmp x l = x :: l := by
  cases l with
  | nil => rfl
  | cons y ys => simp [sortInsert, h y (List.mem_cons_self _ _)]

theorem arraySort_of_pairwise {α : Type} (cmp : α → α → Int) (l : List α)
    (h : l.Pairwise (fun a b => cmp a b ≤ 0)) : arraySort cmp l = l := by
  induction l with
  | nil => rfl
  | cons x xs ih =>
    obtain ⟨hx, hxs⟩ := List.pairwise_cons.1 h
    rw [arraySort, ih hxs, sortInsert_of_forall cmp x xs hx]

theorem filter_sortInsert {α : Type} {cmp : α → α → Int} (hc : ConsistentComparator cmp)
    (q : α → Bool) (x : α) (l : List α) (hl : l.Pairwise (fun a b => cmp a b ≤ 0)) :
    (sortInsert cmp x l).filter q =
      if q x then sortInsert cmp x (l.filter q) else l.filter q := by
  induction l with
  | nil => simp [sortInsert, List.filter_cons]
  | cons y ys ih =>
    obtain ⟨hy, hys⟩ := List.pairwise_cons.1 hl
    by_cases hxy : cmp x y ≤ 0
    · have hins : sortInsert cmp x (y :: ys) = x :: y :: ys := by
        simp only [sortInsert, if_pos hxy]
      rw [hins]
      by_cases hqx : q x = true
      · rw [if_pos hqx, List.filter_cons, if_pos hqx]
        refine (sortInsert_of_forall cmp x _ ?_).symm
        intro z hz
        rcases List.mem_cons.1 (List.mem_filter.1 hz).1 with rfl | hz
        · exact hxy
        · exact hc.trans _ _ _ hxy (hy z hz)
      · rw [if_neg hqx, List.filter_cons, if_neg hqx]
    · have hins : sortInsert cmp x (y :: ys) = y :: sortInsert cmp x ys := by
        simp only [sortInsert, if_neg hxy]
      rw [hins]
      by_cases hqy : q y = true
      · have hf : (y :: ys).filter q = y :: ys.filter q := by
          rw [List.filter_cons, if_pos hqy]
        rw [hf, List.filter_cons, if_pos hqy, ih hys]
        by_cases hqx : q x = true
        · simp only [if_pos hqx, sortInsert, if_neg hxy]
        · simp only [if_neg hqx]
      · have hf : (y :: ys).filter q = ys.filter q := by
          rw [List.filter_cons, if_neg hqy]
        rw [hf, List.filter_cons, if_neg hqy, ih hys]

theorem filter_arraySort {α : Type} {cmp : α → α → Int} (hc : ConsistentComparator cmp)
    (q : α → Bool) (l : List α) :
    (arraySort cmp l).filter q = arraySort cmp (l.filter q) := by
  induction l with
  | nil => rfl
  | cons x xs ih =>
    rw [arraySort, filter_sortInsert hc q x _ (arraySort_pairwise hc xs), ih, List.filter_cons]
    split_ifs <;> rfl

theorem compareItems_consistent (H : Host) (prefs : Prefs)
    (hH : prefs.sort = "alpha" → ConsistentComparator H.localeCompare) :
    ConsistentComparator (compareItems H prefs) := by
  by_cases h1 : prefs.sort = "recent"
  · constructor
    · intro a b
      simp only [compareItems, if_pos h1]
      omega
    · intro a b c
      simp only [compareItems, if_pos h1]
      omega
  · by_cases h2 : prefs.sort = "alpha"
    · constructor
      · intro a b
        simp only [compareItems, if_neg h1, if_pos h2]
        exact (hH h2).swap _ _
      · intro a b c
        simp only [compareItems, if_neg h1, if_pos h2]
        exact (hH h2).trans _ _ _
    · by_cases h3 : prefs.sort = "favorite"
      · constructor
        · intro a b
          simp only [compareItems, if_neg h1, if_neg h2, if_pos h3]
          omega
        · intro a b c
          simp only [compareItems, if_neg h1, if_neg h2, if_pos h3]
          omega
      · constructor
        · intro a b
          simp only [compareItems, if_neg h1, if_neg h2, if_neg h3, lt_self_iff_false]
        · intro a b c
          simp only [compareItems, if_neg h1, if_neg h2, if_neg h3, le_refl, imp_self]

/-! ## Lemmas on the derived view -/

theorem filteredItems_ok_iff (H : Host) (items : List Item) (prefs : Prefs) (search : String)
    (view : List Item) :
    filteredItems H items prefs search = .ok view ↔
      (∀ item ∈ items, succeeds (keepItem H prefs.filter (searchTerm H search)) item = true) ∧
      view = (sorted H items prefs).filter (passes (keepItem H prefs.filter (searchTerm H search))) := by
  unfold filteredItems
  rw [filterE_ok_iff]
  constructor
  · rintro ⟨h1, h2⟩
    exact ⟨fun item hi => h1 item ((mem_arraySort _ _ _).2 hi), h2⟩
  · rintro ⟨h1, h2⟩
    exact ⟨fun item hi => h1 item ((mem_arraySort _ _ _).1 hi), h2⟩

theorem keepItem_succeeds_of_fields (H : Host) (statusFilter term : String) (item : Item)
    (hauthor : item.author ≠ none) (hnotes : item.notes ≠ none) :
    succeeds (keepItem H statusFilter term) item = true := by
  obtain ⟨a, ha⟩ := Option.ne_none_iff_exists'.1 hauthor
  obtain ⟨n, hn⟩ := Option.ne_none_iff_exists'.1 hnotes
  unfold succeeds keepItem
  rw [ha, hn]
  simp only
  split_ifs <;> rfl

theorem filteredItems_ok_of_fields (H : Host) (items : List Item) (prefs : Prefs)
    (search : String) (hfields : ∀ item ∈ items, item.author ≠ none ∧ item.notes ≠ none) :
    ∃ view, filteredItems H items prefs search = .ok view :=
  ⟨_, (filteredItems_ok_iff H items prefs search _).2
    ⟨fun item hi => keepItem_succeeds_of_fields H _ _ item (hfields item hi).1 (hfields item hi).2,
      rfl⟩⟩

theorem keepItem_passes_iff (H : Host) (statusFilter term : String) (item : Item)
    (hs : succeeds (keepItem H statusFilter term) item = true) :
    passes (keepItem H statusFilter term) item = true ↔
      (statusFilter = "all" ∨ item.status = statusFilter) ∧
      (term = "" ∨ IsSubstring term (H.toLowerCase item.title) ∨
        (∃ a, item.author = some a ∧ IsSubstring term (H.toLowerCase a)) ∨
        (∃ n, item.notes = some n ∧ IsSubstring term (H.toLowerCase n))) := by
  unfold succeeds keepItem at hs
  unfold passes keepItem
  by_cases h1 : statusFilter ≠ "all" ∧ item.status ≠ statusFilter
  · rw [if_pos h1]
    simp only [Bool.false_eq_true, false_iff, not_and]
    intro h
    rcases h with h | h
    · exact absurd h h1.1
    · exact absurd h h1.2
  · have hstatus : statusFilter = "all" ∨ item.status = statusFilter := by
      by_contra hc
      push_neg at hc
      exact h1 hc
    rw [if_neg h1] at hs ⊢
    by_cases h2 : term = ""
    · rw [if_pos h2]
      simp only [true_iff]
      exact ⟨hstatus, Or.inl h2⟩
    · rw [if_neg h2] at hs ⊢
      by_cases h3 : includes (H.toLowerCase item.title) term = true
      · rw [if_pos h3]
        simp only [true_iff]
        exact ⟨hstatus, Or.inr (Or.inl ((includes_iff _ _).1 h3))⟩
      · rw [if_neg h3] at hs ⊢
        have h3n : ¬ IsSubstring term (H.toLowerCase item.title) := fun h =>
          h3 ((includes_iff _ _).2 h)
        cases ha : item.author with
        | none =>
          rw [ha] at hs
          cases hs
        | some a =>
          rw [ha] at hs
          by_cases h4 : includes (H.toLowerCase a) term = true
          · simp only [if_pos h4, true_iff]
            exact ⟨hstatus, Or.inr (Or.inr (Or.inl ⟨a, rfl, (includes_iff _ _).1 h4⟩))⟩
          · have h4n : ¬ IsSubstring term (H.toLowerCase a) := fun h =>
              h4 ((includes_iff _ _).2 h)
            simp only [if_neg h4] at hs ⊢
            cases hn : item.notes with
            | none =>
              rw [hn] at hs
              cases hs
            | some n =>
              simp only
              cases hinc : includes (H.toLowerCase n) term with
              | true =>
                simp only [true_iff]
                exact ⟨hstatus, Or.inr (Or.inr (Or.inr ⟨n, rfl, (includes_iff _ _).1 hinc⟩))⟩
              | false =>
                have h5n : ¬ IsSubstring term (H.toLowerCase n) := fun h => by
                  rw [(includes_iff _ _).2 h] at hinc
                  cases hinc
                simp only [Bool.false_eq_true, false_iff, not_and]
                intro _ hor
                rcases hor with h | h | ⟨a2, ha2, h⟩ | ⟨n2, hn2, h⟩
                · exact h2 h
                · exact h3n h
                · cases ha2
                  exact h4n h
                · cases hn2
                  exact h5n h

theorem filter_arraySort_of_group {α : Type} {cmp : α → α → Int} (hc : ConsistentComparator cmp)
    (q : α → Bool) (l : List α) (hq : ∀ a b, q a = true → q b = true → cmp a b ≤ 0) :
    (arraySort cmp l).filter q = l.filter q := by
  rw [filter_arraySort hc]
  refine arraySort_of_pairwise cmp _ (List.pairwise_of_forall_mem_list ?_)
  intro a ha b hb
  exact hq a b (List.mem_filter.1 ha).2 (List.mem_filter.1 hb).2

theorem filter_swap {α : Type} (p q : α → Bool) (l : List α) :
    (l.filter p).filter q = (l.filter q).filter p := by
  simp only [List.filter_filter, Bool.and_comm]

theorem view_group_sublist (H : Host) (items : List Item) (prefs : Prefs) (search : String)
    (hH : prefs.sort = "alpha" → ConsistentComparator H.localeCompare)
    (q : Item → Bool) (hq : ∀ a b, q a = true → q b = true → compareItems H prefs a b ≤ 0)
    (view : List Item) (hview : filteredItems H items prefs search = .ok view) :
    List.Sublist (view.filter q) items := by
  rw [((filteredItems_ok_iff H items prefs search view).1 hview).2, filter_swap, sorted,
    filter_arraySort_of_group (compareItems_consistent H prefs hH) q items hq]
  exact (List.filter_sublist _).trans (List.filter_sublist _)

theorem view_pairwise (H : Host) (items : List Item) (prefs : Prefs) (search : String)
    (hH : prefs.sort = "alpha" → ConsistentComparator H.localeCompare)
    (view : List Item) (hview : filteredItems H items prefs search = .ok view) :
    view.Pairwise (fun a b => compareItems H prefs a b ≤ 0) := by
  rw [((filteredItems_ok_iff H items prefs search view).1 hview).2]
  exact (arraySort_pairwise (compareItems_consistent H prefs hH) items).filter _

theorem eq_filter_append_of_pairwise {α : Type} (q : α → Bool) (l : List α)
    (h : l.Pairwise (fun a b => q b = true → q a = true)) :
    l = l.filter q ++ l.filter (fun a => !q a) := by
  induction l with
  | nil => rfl
  | cons x xs ih =>
    obtain ⟨hx, hxs⟩ := List.pairwise_cons.1 h
    by_cases hqx : q x = true
    · simp only [List.filter_cons, hqx, if_true, Bool.not_true, Bool.false_eq_true, if_false,
        List.cons_append]
      rw [← ih hxs]
    · have hnone : xs.filter q = [] := by
        rw [List.filter_eq_nil_iff]
        intro y hy hqy
        exact hqx (hx y hy hqy)
      have hall : xs.filter (fun a => !q a) = xs := by
        rw [List.filter_eq_self]
        intro y hy
        have : ¬ q y = true := fun hqy => hqx (hx y hy hqy)
        simpa using this
      simp only [List.filter_cons, hqx, if_false, Bool.false_eq_true, hnone, List.nil_append]
      simp only [Bool.not_eq_true] at hqx
      simp only [hqx, Bool.not_false, if_true, hall]

theorem arraySort_eq_insertionSort {α : Type} (cmp : α → α → Int) (l : List α) :
    arraySort cmp l = List.insertionSort (fun a b => cmp a b ≤ 0) l := by
  have hins : ∀ (x : α) (ys : List α),
      sortInsert cmp x ys = List.orderedInsert (fun a b => cmp a b ≤ 0) x ys := by
    intro x ys
    induction ys with
    | nil => rfl
    | cons y ys ih => simp only [sortInsert, List.orderedInsert, ih]
  induction l with
  | nil => rfl
  | cons x xs ih => rw [arraySort, List.insertionSort, ih, hins]

theorem sublist_arraySort {α : Type} (cmp : α → α → Int) (c l : List α)
    (hc : c.Pairwise (fun a b => cmp a b ≤ 0)) (hl : List.Sublist c l) :
    List.Sublist c (arraySort cmp l) := by
  rw [arraySort_eq_insertionSort]
  exact List.sublist_insertionSort hc hl

theorem Action.apply_fields (action : Action) (items : List Item)
    (h : ∀ item ∈ items, item.author ≠ none ∧ item.notes ≠ none) :
    ∀ item ∈ action.apply items, item.author ≠ none ∧ item.notes ≠ none := by
  cases action with
  | submit formState uuid now =>
    intro item hi
    have happ : (Action.submit formState uuid now).apply items =
        handleSubmit formState uuid now items := rfl
    rw [happ] at hi
    unfold handleSubmit at hi
    split_ifs at hi
    · exact h item hi
    · rcases List.mem_cons.1 hi with rfl | hi
      · exact ⟨by simp [newItem], by simp [newItem]⟩
      · exact h item hi
  | updateStatus id status =>
    intro item hi
    obtain ⟨old, hold, rfl⟩ := List.mem_map.1 hi
    by_cases hid : old.id = id
    · simpa [hid] using h old hold
    · simpa [hid] using h old hold
  | removeItem id =>
    intro item hi
    exact h item (List.mem_filter.1 hi).1
  | toggleFavorite id =>
    intro item hi
    obtain ⟨old, hold, rfl⟩ := List.mem_map.1 hi
    by_cases hid : old.id = id
    · simpa [hid] using h old hold
    · simpa [hid] using h old hold

theorem runActions_fields (actions : List Action) :
    ∀ item ∈ runActions actions, item.author ≠ none ∧ item.notes ≠ none := by
  have hgen : ∀ (as : List Action) (start : List Item),
      (∀ item ∈ start, item.author ≠ none ∧ item.notes ≠ none) →
      ∀ item ∈ as.foldl (fun items action => action.apply items) start,
        item.author ≠ none ∧ item.notes ≠ none := by
    intro as
    induction as with
    | nil => intro start h; exact h
    | cons a as ih => intro start h; exact ih _ (a.apply_fields start h)
  exact hgen actions [] (fun item hi => absurd hi (List.not_mem_nil _))

theorem codePointCompare_consistent : ConsistentComparator codePointCompare := by
  have key : ∀ a b : String, codePointCompare a b ≤ 0 ↔ ¬ b.data < a.data := by
    intro a b
    unfold codePointCompare
    split_ifs with h1 h2
    · simp only [Left.neg_nonpos_iff, zero_le_one, true_iff]
      exact lt_asymm h1
    · simp only [h2, not_true_eq_false, iff_false, not_le, zero_lt_one]
    · simp only [le_refl, h2, not_false_eq_true]
  constructor
  · intro a b
    by_cases h1 : a.data < b.data
    · have h2 : ¬ b.data < a.data := lt_asymm h1
      simp [codePointCompare, h1, h2]
    · by_cases h2 : b.data < a.data
      · simp [codePointCompare, h1, h2]
      · simp [codePointCompare, h1, h2]
  · intro a b c hab hbc
    rw [key] at hab hbc ⊢
    exact not_lt.2 (le_trans (not_lt.1 hab) (not_lt.1 hbc))

/-! ## The properties of the specification -/

/-- C1 as stated fails: in the collection of "Atomic Habits" and an item without
author, the search text `clear` is a substring of the lower-cased author of
"Atomic Habits", whose status passes the filter `all`; the filter callback
throws on the other item, and no view is returned for "Atomic Habits" to
appear in. -/
theorem filteredItems_membership_fails :
    atomicHabits ∈ [atomicHabits, bareItem] ∧
    defaultPrefs.filter = "all" ∧
    atomicHabits.author = some "James Clear" ∧
    IsSubstring (asciiHost.toLowerCase (trim "clear")) (asciiHost.toLowerCase "James Clear") ∧
    bareItem.author = none ∧
    filteredItems asciiHost [atomicHabits, bareItem] defaultPrefs "clear" = .error .typeError :=
  ⟨by decide, rfl, rfl, (includes_iff _ _).1 rfl, rfl, rfl⟩

/-- C1, amended: when every item has an author and notes (possibly empty), the
view is returned, and an item is in it exactly when it is in the collection,
its status passes the filter (`all` or equal), and the search text, trimmed
and lower-cased, is empty or a substring of its lower-cased title, author or
notes; on any collection the same holds of every view that is returned; with
filter `reading` and no item in status `reading` the view is empty; the text
`clear`, also written in capitals between blanks, keeps the item by James
Clear and drops the other one. -/
theorem filteredItems_membership (H : Host) (items : List Item) (prefs : Prefs)
    (search : String) :
    ((∀ item ∈ items, item.author ≠ none ∧ item.notes ≠ none) →
      ∃ view, filteredItems H items prefs search = .ok view ∧
        ∀ item, item ∈ view ↔
          item ∈ items ∧ (prefs.filter = "all" ∨ item.status = prefs.filter) ∧
          (H.toLowerCase (trim search) = "" ∨
            IsSubstring (H.toLowerCase (trim search)) (H.toLowerCase item.title) ∨
            (∃ a, item.author = some a ∧
              IsSubstring (H.toLowerCase (trim search)) (H.toLowerCase a)) ∨
            (∃ n, item.notes = some n ∧
              IsSubstring (H.toLowerCase (trim search)) (H.toLowerCase n)))) ∧
    (∀ view, filteredItems H items prefs search = .ok view →
      ∀ item, item ∈ view ↔
        item ∈ items ∧ (prefs.filter = "all" ∨ item.status = prefs.filter) ∧
        (H.toLowerCase (trim search) = "" ∨
          IsSubstring (H.toLowerCase (trim search)) (H.toLowerCase item.title) ∨
          (∃ a, item.author = some a ∧
            IsSubstring (H.toLowerCase (trim search)) (H.toLowerCase a)) ∨
          (∃ n, item.notes = some n ∧
            IsSubstring (H.toLowerCase (trim search)) (H.toLowerCase n)))) ∧
    (prefs.filter = "reading" → (∀ item ∈ items, item.status ≠ "reading") →
      filteredItems H items prefs search = .ok []) ∧
    filteredItems asciiHost [deepWork, atomicHabits] defaultPrefs "clear" = .ok [atomicHabits] ∧
    filteredItems asciiHost [deepWork, atomicHabits] defaultPrefs " \t CLEAR \n" =
      .ok [atomicHabits] := by
  have hgeneral : ∀ view, filteredItems H items prefs search = .ok view →
      ∀ item, item ∈ view ↔
        item ∈ items ∧ (prefs.filter = "all" ∨ item.status = prefs.filter) ∧
        (H.toLowerCase (trim search) = "" ∨
          IsSubstring (H.toLowerCase (trim search)) (H.toLowerCase item.title) ∨
          (∃ a, item.author = some a ∧
            IsSubstring (H.toLowerCase (trim search)) (H.toLowerCase a)) ∨
          (∃ n, item.notes = some n ∧
            IsSubstring (H.toLowerCase (trim search)) (H.toLowerCase n))) := by
    intro view hview item
    obtain ⟨hall, hv⟩ := (filteredItems_ok_iff H items prefs search view).1 hview
    rw [hv, List.mem_filter, sorted, mem_arraySort]
    constructor
    · rintro ⟨hi, hp⟩
      exact ⟨hi, (keepItem_passes_iff H _ _ item (hall item hi)).1 hp⟩
    · rintro ⟨hi, hp⟩
      exact ⟨hi, (keepItem_passes_iff H _ _ item (hall item hi)).2 hp⟩
  refine ⟨?_, hgeneral, ?_, rfl, rfl⟩
  · intro hfields
    obtain ⟨view, hview⟩ := filteredItems_ok_of_fields H items prefs search hfields
    exact ⟨view, hview, hgeneral view hview⟩
  · intro hf hnone
    have hkeep : ∀ item ∈ items,
        keepItem H prefs.filter (searchTerm H search) item = .ok false := by
      intro item hi
      unfold keepItem
      rw [if_pos]
      rw [hf]
      exact ⟨by decide, hnone item hi⟩
    rw [filteredItems_ok_iff]
    refine ⟨fun item hi => by simp only [succeeds, hkeep item hi], ?_⟩
    symm
    rw [List.filter_eq_nil_iff]
    intro item hi
    rw [sorted, mem_arraySort] at hi
    simp only [passes, hkeep item hi, Bool.false_eq_true, not_false_eq_true]

/-- Witness of C1, amended: the two scenario items and a search text that needs
trimming and lower-casing. -/
theorem filteredItems_membership_witness :
    ∃ view, filteredItems asciiHost [deepWork, atomicHabits] defaultPrefs " \t CLEAR \n" =
        .ok view ∧
      ∀ item, item ∈ view ↔
        item ∈ [deepWork, atomicHabits] ∧
        (defaultPrefs.filter = "all" ∨ item.status = defaultPrefs.filter) ∧
        (asciiHost.toLowerCase (trim " \t CLEAR \n") = "" ∨
          IsSubstring (asciiHost.toLowerCase (trim " \t CLEAR \n"))
            (asciiHost.toLowerCase item.title) ∨
          (∃ a, item.author = some a ∧
            IsSubstring (asciiHost.toLowerCase (trim " \t CLEAR \n"))
              (asciiHost.toLowerCase a)) ∨
          (∃ n, item.notes = some n ∧
            IsSubstring (asciiHost.toLowerCase (trim " \t CLEAR \n"))
              (asciiHost.toLowerCase n))) :=
  (filteredItems_membership asciiHost [deepWork, atomicHabits] defaultPrefs " \t CLEAR \n").1
    (by decide)

/-- C2: the view is a sublist of the sorted collection, and it is what the same
sort returns on the collection filtered first; an exception of the filter
callback is an exception either way.  The comparator of the host is assumed
consistent, as ECMAScript requires of `localeCompare`. -/
theorem filteredItems_filter_then_sort (H : Host) (items : List Item) (prefs : Prefs)
    (search : String) (hH : prefs.sort = "alpha" → ConsistentComparator H.localeCompare) :
    (∀ view, filteredItems H items prefs search = .ok view →
      List.Sublist view (sorted H items prefs)) ∧
    filteredItems H items prefs search =
      (filterE (keepItem H prefs.filter (searchTerm H search)) items).map
        (fun kept => sorted H kept prefs) := by
  constructor
  · intro view hview
    rw [((filteredItems_ok_iff H items prefs search view).1 hview).2]
    exact List.filter_sublist _
  · cases hr : filterE (keepItem H prefs.filter (searchTerm H search)) items with
    | error e =>
      cases e
      obtain ⟨x, hx, hfail⟩ := (filterE_error_iff _ _).1 hr
      exact (filterE_error_iff _ _).2 ⟨x, (mem_arraySort _ _ _).2 hx, hfail⟩
    | ok kept =>
      obtain ⟨hall, hk⟩ := (filterE_ok_iff _ _ _).1 hr
      show filteredItems H items prefs search = .ok (sorted H kept prefs)
      rw [filteredItems_ok_iff]
      refine ⟨hall, ?_⟩
      rw [hk, sorted, sorted, filter_arraySort (compareItems_consistent H prefs hH)]

/-- Witness of C2: the alphabetical view of the two scenario items. -/
theorem filteredItems_filter_then_sort_witness :
    filteredItems asciiHost [deepWork, atomicHabits] { sort := "alpha", filter := "all" } "" =
      (filterE (keepItem asciiHost "all" (searchTerm asciiHost "")) [deepWork, atomicHabits]).map
        (fun kept => sorted asciiHost kept { sort := "alpha", filter := "all" }) :=
  (filteredItems_filter_then_sort asciiHost [deepWork, atomicHabits]
    { sort := "alpha", filter := "all" } "" (fun _ => codePointCompare_consistent)).2

/-- C3: with the sort `recent` the view is in descending order of `createdAt`, and
the items of one `createdAt` are in collection order; the view is produced
whenever every item has an author and notes.  After two successive `addItem`
calls under a clock that does not go backwards, the item added later comes
before the item added earlier in the view; on the empty collection, with filter
`all` and an empty search term, the view is the later item, then the earlier. -/
theorem recent_view_order (H : Host) (items : List Item) (prefs : Prefs) (search : String)
    (hsort : prefs.sort = "recent") :
    (∀ view, filteredItems H items prefs search = .ok view →
      view.Pairwise (fun a b => b.createdAt ≤ a.createdAt) ∧
      ∀ t : Int, List.Sublist (view.filter (fun item => item.createdAt == t)) items) ∧
    ((∀ item ∈ items, item.author ≠ none ∧ item.notes ≠ none) →
      ∃ view, filteredItems H items prefs search = .ok view) ∧
    (∀ (d1 d2 : Draft) (u1 u2 : String) (t1 t2 : Int), t1 ≤ t2 →
      (∀ view,
        filteredItems H (addItem d2 u2 t2 (addItem d1 u1 t1 items)) prefs search = .ok view →
        newItem d1 u1 t1 ∈ view → newItem d2 u2 t2 ∈ view →
        List.Sublist [newItem d2 u2 t2, newItem d1 u1 t1] view) ∧
      (prefs.filter = "all" → searchTerm H search = "" →
        filteredItems H (addItem d2 u2 t2 (addItem d1 u1 t1 [])) prefs search =
          .ok [newItem d2 u2 t2, newItem d1 u1 t1])) := by
  have hH : prefs.sort = "alpha" → ConsistentComparator H.localeCompare := fun h => by
    rw [hsort] at h
    exact absurd h (by decide)
  have hcmp : ∀ a b : Item, compareItems H prefs a b = b.createdAt - a.createdAt := fun a b => by
    simp only [compareItems, if_pos hsort]
  refine ⟨?_, filteredItems_ok_of_fields H items prefs search, ?_⟩
  · intro view hview
    constructor
    · refine (view_pairwise H items prefs search hH view hview).imp ?_
      intro a b hab
      rw [hcmp] at hab
      omega
    · intro t
      refine view_group_sublist H items prefs search hH _ ?_ view hview
      intro a b ha hb
      rw [hcmp]
      simp only [beq_iff_eq] at ha hb
      omega
  · intro d1 d2 u1 u2 t1 t2 hclock
    have hpair : [newItem d2 u2 t2, newItem d1 u1 t1].Pairwise
        (fun a b => compareItems H prefs a b ≤ 0) := by
      refine List.pairwise_pair.2 ?_
      rw [hcmp]
      show t1 - t2 ≤ 0
      omega
    constructor
    · intro view hview h1 h2
      have hv := ((filteredItems_ok_iff H _ prefs search view).1 hview).2
      rw [hv] at h1 h2 ⊢
      have hsub : List.Sublist [newItem d2 u2 t2, newItem d1 u1 t1]
          (sorted H (addItem d2 u2 t2 (addItem d1 u1 t1 items)) prefs) :=
        sublist_arraySort _ _ _ hpair
          (List.Sublist.cons₂ _ (List.Sublist.cons₂ _ (List.nil_sublist _)))
      have hf := hsub.filter (passes (keepItem H prefs.filter (searchTerm H search)))
      simp only [List.filter_cons, (List.mem_filter.1 h1).2, (List.mem_filter.1 h2).2, if_true,
        List.filter_nil] at hf
      exact hf
    · intro hfilter hterm
      have hkeep : ∀ item : Item,
          keepItem H prefs.filter (searchTerm H search) item = .ok true := by
        intro item
        unfold keepItem
        rw [if_neg (fun h => h.1 hfilter), if_pos hterm]
      rw [filteredItems_ok_iff]
      refine ⟨fun item _ => by simp only [succeeds, hkeep], ?_⟩
      rw [sorted, addItem, addItem, arraySort_of_pairwise _ _ hpair]
      simp only [List.filter_cons, passes, hkeep, if_true, List.filter_nil]

/-- Witness of C3: "Atomic Habits" added at time 1000, "Deep Work" at time 2000. -/
theorem recent_view_order_witness :
    defaultPrefs.sort = "recent" ∧ (1000 : Int) ≤ 2000 ∧
    filteredItems asciiHost
      (addItem deepWorkDraft "id-2" 2000 (addItem atomicHabitsDraft "id-1" 1000 []))
      defaultPrefs "" = .ok [deepWork, atomicHabits] :=
  ⟨rfl, by decide,
    ((recent_view_order asciiHost [] defaultPrefs "" rfl).2.2
      atomicHabitsDraft deepWorkDraft "id-1" "id-2" 1000 2000 (by decide)).2 rfl rfl⟩

/-- C4: with the sort `favorite` the view is its favorites followed by its other
items (an absent flag counts as not favorite), and each of the two groups is in
collection order; the view is produced whenever every item has an author and
notes. -/
theorem favorite_view_order (H : Host) (items : List Item) (prefs : Prefs) (search : String)
    (hsort : prefs.sort = "favorite") :
    (∀ view, filteredItems H items prefs search = .ok view →
      view = view.filter isFavorite ++ view.filter (fun item => !isFavorite item) ∧
      List.Sublist (view.filter isFavorite) items ∧
      List.Sublist (view.filter (fun item => !isFavorite item)) items) ∧
    ((∀ item ∈ items, item.author ≠ none ∧ item.notes ≠ none) →
      ∃ view, filteredItems H items prefs search = .ok view) := by
  have hH : prefs.sort = "alpha" → ConsistentComparator H.localeCompare := fun h => by
    rw [hsort] at h
    exact absurd h (by decide)
  have hcmp : ∀ a b : Item, compareItems H prefs a b =
      toNumber (isFavorite b) - toNumber (isFavorite a) := fun a b => by
    have h1 : ¬ prefs.sort = "recent" := by
      rw [hsort]
      decide
    have h2 : ¬ prefs.sort = "alpha" := by
      rw [hsort]
      decide
    simp only [compareItems, if_neg h1, if_neg h2, if_pos hsort, isFavorite]
  refine ⟨?_, filteredItems_ok_of_fields H items prefs search⟩
  intro view hview
  refine ⟨?_, ?_, ?_⟩
  · refine eq_filter_append_of_pairwise isFavorite view
      ((view_pairwise H items prefs search hH view hview).imp ?_)
    intro a b hab hb
    rw [hcmp, hb] at hab
    cases ha : isFavorite a with
    | true => rfl
    | false =>
      rw [ha] at hab
      exact absurd hab (by decide)
  · refine view_group_sublist H items prefs search hH _ ?_ view hview
    intro a b ha hb
    rw [hcmp, ha, hb]
    decide
  · refine view_group_sublist H items prefs search hH _ ?_ view hview
    intro a b ha hb
    simp only [Bool.not_eq_true'] at ha hb
    rw [hcmp, ha, hb]
    decide

/-- Witness of C4: one favorite behind two other items. -/
theorem favorite_view_order_witness :
    filteredItems asciiHost [deepWork, atomicHabits, starredItem]
      { sort := "favorite", filter := "all" } "" = .ok [starredItem, deepWork, atomicHabits] ∧
    [starredItem, deepWork, atomicHabits] =
      [starredItem, deepWork, atomicHabits].filter isFavorite ++
        [starredItem, deepWork, atomicHabits].filter (fun item => !isFavorite item) ∧
    List.Sublist ([starredItem, deepWork, atomicHabits].filter isFavorite)
      [deepWork, atomicHabits, starredItem] ∧
    List.Sublist ([starredItem, deepWork, atomicHabits].filter (fun item => !isFavorite item))
      [deepWork, atomicHabits, starredItem] :=
  ⟨rfl, (favorite_view_order asciiHost [deepWork, atomicHabits, starredItem]
    { sort := "favorite", filter := "all" } "" rfl).1 [starredItem, deepWork, atomicHabits] rfl⟩

/-- C5: after a sequence of `addItem` calls on the empty collection, with ids that
are pairwise distinct, the collection has one item per call and the ids of its
items are pairwise distinct; the drafts, their titles and the fields they carry
play no role. -/
theorem addAll_length_nodup (calls : List (Draft × String × Int))
    (hids : (calls.map (fun call => call.2.1)).Nodup) :
    (addAll calls []).length = calls.length ∧
    ((addAll calls []).map (fun item => item.id)).Nodup := by
  have hgen : ∀ (cs : List (Draft × String × Int)) (start : List Item),
      (addAll cs start).map (fun item => item.id) =
        (cs.map (fun call => call.2.1)).reverse ++ start.map (fun item => item.id) := by
    intro cs
    induction cs with
    | nil => intro start; rfl
    | cons c cs ih =>
      intro start
      show (addAll cs (addItem c.1 c.2.1 c.2.2 start)).map (fun item => item.id) = _
      rw [ih]
      simp [addItem, newItem]
  have hmap := hgen calls []
  simp only [List.map_nil, List.append_nil] at hmap
  constructor
  · have hlen := congrArg List.length hmap
    simpa using hlen
  · rw [hmap]
    exact List.nodup_reverse.2 hids

/-- Witness of C5: the two scenario drafts. -/
theorem addAll_length_nodup_witness :
    (addAll [(atomicHabitsDraft, "id-1", 1000), (deepWorkDraft, "id-2", 2000)] []).length = 2 ∧
    ((addAll [(atomicHabitsDraft, "id-1", 1000), (deepWorkDraft, "id-2", 2000)] []).map
      (fun item => item.id)).Nodup :=
  addAll_length_nodup [(atomicHabitsDraft, "id-1", 1000), (deepWorkDraft, "id-2", 2000)]
    (by decide)

/-- C6: `removeItem(id)` twice is `removeItem(id)` once; after one call no item
has the id; when no item has the id the call changes nothing. -/
theorem removeItem_idempotent (id : String) (items : List Item) :
    removeItem id (removeItem id items) = removeItem id items ∧
    (∀ item ∈ removeItem id items, item.id ≠ id) ∧
    ((∀ item ∈ items, item.id ≠ id) → removeItem id items = items) := by
  refine ⟨?_, ?_, ?_⟩
  · unfold removeItem
    rw [List.filter_filter]
    simp only [Bool.and_self]
  · intro item hi
    have := (List.mem_filter.1 hi).2
    simpa using this
  · intro h
    unfold removeItem
    rw [List.filter_eq_self]
    intro item hi
    simpa using h item hi

/-- Witness of C6: removing "Deep Work" from the two scenario items. -/
theorem removeItem_idempotent_witness :
    removeItem "id-2" (removeItem "id-2" [deepWork, atomicHabits]) = [atomicHabits] ∧
    removeItem "id-9" [deepWork, atomicHabits] = [deepWork, atomicHabits] :=
  ⟨(removeItem_idempotent "id-2" [deepWork, atomicHabits]).1.trans (by decide),
    (removeItem_idempotent "id-9" [deepWork, atomicHabits]).2.2 (by decide)⟩

/-- C7: position by position, `toggleFavorite(id)` applied twice gives back the
favorite flag of every item (an absent flag counts as false) and every other
field; applied once it negates the flag of the items with the given id, keeps
their other fields, and leaves every other item as it is. -/
theorem toggleFavorite_twice (id : String) (items : List Item) :
    List.Forall₂ (fun old new => isFavorite new = isFavorite old ∧ SameExceptFavorite old new)
      items (toggleFavorite id (toggleFavorite id items)) ∧
    List.Forall₂
      (fun old new =>
        SameExceptFavorite old new ∧
        (old.id = id → isFavorite new = !isFavorite old) ∧
        (old.id ≠ id → new = old))
      items (toggleFavorite id items) := by
  constructor
  · unfold toggleFavorite
    rw [List.map_map, List.forall₂_map_right_iff, List.forall₂_same]
    intro item _
    by_cases h : item.id = id
    · simp [h, isFavorite, SameExceptFavorite]
    · simp [h, isFavorite, SameExceptFavorite]
  · unfold toggleFavorite
    rw [List.forall₂_map_right_iff, List.forall₂_same]
    intro item _
    by_cases h : item.id = id
    · simp [h, isFavorite, SameExceptFavorite]
    · simp [h, isFavorite, SameExceptFavorite]

/-- Witness of C7: toggling "Deep Work" twice and once. -/
theorem toggleFavorite_twice_witness :
    toggleFavorite "id-2" [deepWork, atomicHabits] =
      [{ deepWork with favorite := some true }, atomicHabits] ∧
    List.Forall₂ (fun old new => isFavorite new = isFavorite old ∧ SameExceptFavorite old new)
      [deepWork, atomicHabits]
      (toggleFavorite "id-2" (toggleFavorite "id-2" [deepWork, atomicHabits])) :=
  ⟨by decide, (toggleFavorite_twice "id-2" [deepWork, atomicHabits]).1⟩

/-- C8: `updateStatus(id, status)` changes nothing when no item has the id;
position by position, it keeps every field but `status`, gives the items with
the id the new status, and leaves every other item as it is. -/
theorem updateStatus_frame (id status : String) (items : List Item) :
    ((∀ item ∈ items, item.id ≠ id) → updateStatus id status items = items) ∧
    (updateStatus id status items).length = items.length ∧
    List.Forall₂
      (fun old new =>
        SameExceptStatus old new ∧
        (old.id = id → new.status = status) ∧
        (old.id ≠ id → new = old))
      items (updateStatus id status items) := by
  refine ⟨?_, ?_, ?_⟩
  · intro h
    unfold updateStatus
    conv_rhs => rw [← List.map_id items]
    refine List.map_congr_left ?_
    intro item hi
    simp [h item hi]
  · simp [updateStatus]
  · unfold updateStatus
    rw [List.forall₂_map_right_iff, List.forall₂_same]
    intro item _
    by_cases h : item.id = id
    · simp [h, SameExceptStatus]
    · simp [h, SameExceptStatus]

/-- Witness of C8: an id that no item has, and the id of "Deep Work". -/
theorem updateStatus_frame_witness :
    updateStatus "id-9" "reading" [deepWork, atomicHabits] = [deepWork, atomicHabits] ∧
    (updateStatus "id-2" "reading" [deepWork, atomicHabits]).length = 2 :=
  ⟨(updateStatus_frame "id-9" "reading" [deepWork, atomicHabits]).1 (by decide),
    (updateStatus_frame "id-2" "reading" [deepWork, atomicHabits]).2.1⟩

/-- C9 as stated fails.  With an unparseable collection text the load effect
removes the key, and the persistence effect of the same commit writes the
default back: after startup the key is present.  With an unparseable
preferences text the load effect leaves the key in place, the persistence
effect overwrites it, and the render that follows throws instead of keeping
the default preferences. -/
theorem startup_corrupted_key_present :
    (corruptedItemsStorage.getItem STORAGE_KEY = some "[oops" ∧
      defaultsJson.parseItems "[oops" = none ∧
      (loadEffect defaultsJson corruptedItemsStorage).storage.getItem STORAGE_KEY = none ∧
      (mountEffects defaultsJson corruptedItemsStorage).getItem STORAGE_KEY = some "[]" ∧
      ∃ hook, startup defaultsJson corruptedItemsStorage = .ok hook ∧
        hook.storage.getItem STORAGE_KEY = some "[]") ∧
    (corruptedPrefsStorage.getItem PREF_KEY = some "\x7boops" ∧
      defaultsJson.parsePrefs "\x7boops" = none ∧
      (loadEffect defaultsJson corruptedPrefsStorage).storage.getItem PREF_KEY =
        some "\x7boops" ∧
      (mountEffects defaultsJson corruptedPrefsStorage).getItem PREF_KEY ≠ none ∧
      startup defaultsJson corruptedPrefsStorage = .error .syntaxError) :=
  ⟨⟨rfl, rfl, by decide, by decide, _, rfl, by decide⟩, rfl, rfl, by decide, by decide, rfl⟩

/-- C9, amended: an unparseable text under the collection key queues no update
of the collection, so that the in-memory collection stays empty; the load
effect removes the key when the text is not empty; the persistence effect of
the first commit then writes the serialised empty collection under the key,
and that is what the key holds when startup completes, which it does whenever
the preferences text is absent, empty or parseable. -/
theorem startup_corrupted_resets (J : Json) (storage : Storage) (v : String)
    (hv : storage.getItem STORAGE_KEY = some v) (hparse : J.parseItems v = none) :
    (loadEffect J storage).setItems = none ∧
    (v ≠ "" → (loadEffect J storage).storage.getItem STORAGE_KEY = none) ∧
    (mountEffects J storage).getItem STORAGE_KEY = some (J.stringifyItems []) ∧
    (∀ hook, startup J storage = .ok hook →
      hook.items = [] ∧ hook.storage.getItem STORAGE_KEY = some (J.stringifyItems [])) ∧
    ((∀ text, storage.getItem PREF_KEY = some text → text = "" ∨ J.parsePrefs text ≠ none) →
      ∃ hook, startup J storage = .ok hook) := by
  have hkeys : STORAGE_KEY ≠ PREF_KEY := by decide
  have hset : (loadEffect J storage).setItems = none := by
    simp only [loadEffect, hv, Option.some_bind, hparse]
    split_ifs <;> rfl
  have hmount : (mountEffects J storage).getItem STORAGE_KEY = some (J.stringifyItems []) := by
    simp [mountEffects, persistPrefs, persistItems, Storage.getItem, Storage.setItem, hkeys]
  refine ⟨hset, ?_, hmount, ?_, ?_⟩
  · intro hne
    have ht : truthy (some v) = true := by simpa [truthy] using hne
    simp only [loadEffect, hv, Option.some_bind, hparse, ht, if_true]
    simp [Storage.getItem, Storage.removeItem]
  · intro hook hhook
    cases hp : (loadEffect J storage).setPrefs with
    | none =>
      simp only [startup, hset, hp, Option.getD_none, Option.isSome_none, Bool.false_eq_true,
        if_false] at hhook
      cases hhook
      exact ⟨rfl, hmount⟩
    | some text =>
      cases hu : prefsUpdater J text defaultPrefs with
      | error e =>
        simp only [startup, hset, hp, hu] at hhook
        cases hhook
      | ok prefs =>
        simp only [startup, hset, hp, hu, Option.getD_none, Option.isSome_none,
          Bool.false_eq_true, if_false] at hhook
        cases hhook
        refine ⟨rfl, ?_⟩
        have hget : (persistPrefs J prefs (mountEffects J storage)).getItem STORAGE_KEY =
            (mountEffects J storage).getItem STORAGE_KEY := by
          simp [persistPrefs, Storage.getItem, Storage.setItem, hkeys]
        rw [hget, hmount]
  · intro hprefs
    cases hp : (loadEffect J storage).setPrefs with
    | none =>
      simp only [startup, hp]
      exact ⟨_, rfl⟩
    | some text =>
      have hstored : storage.getItem PREF_KEY = some text ∧ text ≠ "" := by
        simp only [loadEffect] at hp
        cases hs : storage.getItem PREF_KEY with
        | none =>
          rw [hs] at hp
          simp [truthy] at hp
        | some t =>
          rw [hs] at hp
          by_cases ht : truthy (some t) = true
          · rw [if_pos ht] at hp
            cases hp
            exact ⟨rfl, by simpa [truthy] using ht⟩
          · rw [if_neg ht] at hp
            cases hp
      rcases hprefs text hstored.1 with hempty | hok
      · exact absurd hempty hstored.2
      · obtain ⟨patch, hpatch⟩ := Option.ne_none_iff_exists'.1 hok
        simp only [startup, hp, prefsUpdater, hpatch]
        exact ⟨_, rfl⟩

/-- Witness of C9, amended: the unparseable collection text of
`corruptedItemsStorage`, where no preferences are stored. -/
theorem startup_corrupted_resets_witness :
    (loadEffect defaultsJson corruptedItemsStorage).setItems = none ∧
    ("[oops" ≠ "" →
      (loadEffect defaultsJson corruptedItemsStorage).storage.getItem STORAGE_KEY = none) ∧
    (mountEffects defaultsJson corruptedItemsStorage).getItem STORAGE_KEY =
      some (defaultsJson.stringifyItems []) ∧
    (∀ hook, startup defaultsJson corruptedItemsStorage = .ok hook →
      hook.items = [] ∧
      hook.storage.getItem STORAGE_KEY = some (defaultsJson.stringifyItems [])) ∧
    ((∀ text, corruptedItemsStorage.getItem PREF_KEY = some text →
        text = "" ∨ defaultsJson.parsePrefs text ≠ none) →
      ∃ hook, startup defaultsJson corruptedItemsStorage = .ok hook) :=
  startup_corrupted_resets defaultsJson corruptedItemsStorage "[oops" rfl rfl

/-- C10 as stated fails: on an item without author and a search term that its
title does not contain, the filter callback calls `toLowerCase` on `undefined`
and `filteredItems` ends in a `TypeError`. -/
theorem filteredItems_absent_author_throws :
    bareItem.author = none ∧
    includes (asciiHost.toLowerCase bareItem.title) (searchTerm asciiHost "clear") = false ∧
    filteredItems asciiHost [bareItem] defaultPrefs "clear" = .error .typeError :=
  ⟨rfl, rfl, rfl⟩

/-- C10, amended: when every item has an author and notes (possibly empty),
`filteredItems` returns a list for every prefs and every search term; such are
all collections that form submissions, status updates, removals and favorite
toggles build from the empty collection; on every collection a list is
returned when the search term is empty. -/
theorem filteredItems_returns (H : Host) (items : List Item) (prefs : Prefs) (search : String) :
    ((∀ item ∈ items, item.author ≠ none ∧ item.notes ≠ none) →
      ∃ view, filteredItems H items prefs search = .ok view) ∧
    (∀ actions : List Action,
      ∃ view, filteredItems H (runActions actions) prefs search = .ok view) ∧
    (searchTerm H search = "" → ∃ view, filteredItems H items prefs search = .ok view) := by
  refine ⟨filteredItems_ok_of_fields H items prefs search,
    fun actions => filteredItems_ok_of_fields H _ prefs search (runActions_fields actions), ?_⟩
  intro hterm
  refine ⟨_, (filteredItems_ok_iff H items prefs search _).2 ⟨?_, rfl⟩⟩
  intro item _
  unfold succeeds keepItem
  rw [hterm]
  by_cases h : prefs.filter ≠ "all" ∧ item.status ≠ prefs.filter
  · rw [if_pos h]
  · rw [if_neg h, if_pos rfl]

/-- Witness of C10, amended: the scenario items under a term that no title
contains, and the item without author under a blank search text. -/
theorem filteredItems_returns_witness :
    (∃ view, filteredItems asciiHost [deepWork, atomicHabits] defaultPrefs "zebra" = .ok view) ∧
    (∃ view, filteredItems asciiHost [bareItem] defaultPrefs "  " = .ok view) :=
  ⟨(filteredItems_returns asciiHost [deepWork, atomicHabits] defaultPrefs "zebra").1 (by decide),
    (filteredItems_returns asciiHost [bareItem] defaultPrefs "  ").2.2 rfl⟩

end PocketShelf
